import Mathlib

set_option maxRecDepth 100000
set_option maxHeartbeats 4000000

deriving instance DecidableEq for Except

/-!
Shallow embedding of the TOTP core (`totp/totp.go`) of the `otp` repository.

The embedding models:
* the option records (`ValidateOpts`, `GenerateOpts`) and their default-filling,
* the derived moving counter, including the `float64` arithmetic the source
  uses (`uint64(math.Floor(float64(t.Unix()) / float64(opts.Period)))`):
  IEEE-754 double precision round-to-nearest-even is modelled exactly over ℚ,
* the skew window construction and the validation loop of `ValidateCustom`,
  instrumented with the trace of counters actually passed to the HOTP
  primitive,
* the provisioning-key `Generate` function with its URI assembly
  (query escaping and `url.Values.Encode` key-sorted encoding),
* the external HOTP primitive (the `hotp` package is not part of this core;
  it is modelled from the spec with a full HMAC-SHA1 implementation, RFC
  4226 dynamic truncation and unpadded base32 decoding).

Machine integers are modelled as `Nat`/`Int` with explicit reduction
modulo `2 ^ 64` where Go's conversions wrap.  Go's `int64 → uint64`
conversion wraps; its out-of-range `float64 → uint64` conversion is
implementation-defined and is modelled as the same wrap (amd64 behaviour).
-/

namespace Totp

/-- Hash algorithm choice, modelled from the spec: enumerated SHA1/SHA256/SHA512,
with SHA1 the zero value of the Go `otp.Algorithm` type (`AlgorithmSHA1` is the
first `iota` constant). -/
inductive Algorithm where
  | sha1
  | sha256
  | sha512
deriving DecidableEq, Repr

/-- Canonical name of an algorithm, as rendered into the provisioning URI. -/
def Algorithm.name : Algorithm → String
  | .sha1 => "SHA1"
  | .sha256 => "SHA256"
  | .sha512 => "SHA512"

/-- `ValidateOpts` of the source: Period and Skew are Go `uint`, Digits the
`otp.Digits` integer (6 or 8; 0 = unset), Algorithm the enumerated choice. -/
structure ValidateOpts where
  period : Nat
  skew : Nat
  digits : Nat
  algorithm : Algorithm
deriving DecidableEq, Repr

/-- The Go zero value `new(ValidateOpts)`: all numeric fields 0, Algorithm at
its zero value, which is SHA1. -/
def zeroOpts : ValidateOpts := ⟨0, 0, 0, .sha1⟩

/-- `defaultOpts` of the source: rewrites a zero Skew to 30, a zero Digits to
6 (`otp.DigitsSix`), and a zero Period to 30.  The Algorithm field is not
touched. -/
def ValidateOpts.defaultOpts (opts : ValidateOpts) : ValidateOpts :=
  let opts := if opts.skew = 0 then { opts with skew := 30 } else opts
  let opts := if opts.digits = 0 then { opts with digits := 6 } else opts
  let opts := if opts.period = 0 then { opts with period := 30 } else opts
  opts

/-- A `ValidateOpt` option function, mutating the option record. -/
def ValidateOpt := ValidateOpts → ValidateOpts

/-- `WithPeriod` option function of the source. -/
def WithPeriod (period : Nat) : ValidateOpt := fun opt => { opt with period := period }

/-- `WithSkew` option function of the source. -/
def WithSkew (skew : Nat) : ValidateOpt := fun opt => { opt with skew := skew }

/-- `WithDigits` option function of the source. -/
def WithDigits (digits : Nat) : ValidateOpt := fun opt => { opt with digits := digits }

/-- `WithAlgorithm` option function of the source. -/
def WithAlgorithm (algo : Algorithm) : ValidateOpt := fun opt => { opt with algorithm := algo }

/-- Application of the variadic option functions to `new(ValidateOpts)`,
in order, as both `GenerateCodeCustom` and `ValidateCustom` do. -/
def applyOpts (fns : List ValidateOpt) : ValidateOpts :=
  fns.foldl (fun o f => f o) zeroOpts

/-- Fully resolved options of a call: option functions applied, then
`defaultOpts`. -/
def resolveOpts (fns : List ValidateOpt) : ValidateOpts :=
  (applyOpts fns).defaultOpts

/-! ### IEEE-754 double precision model

The source computes the counter as
`math.Floor(float64(t.Unix()) / float64(opts.Period))`.  Both conversions and
the division round the exact rational value to the nearest double
(53 significant bits, ties to even).  `rn53` is that rounding, built from a
computable binade exponent. -/

/-- Nearest integer to a rational, ties to even. -/
def rne (x : ℚ) : ℤ :=
  if x - ⌊x⌋ < 1/2 then ⌊x⌋
  else if 1/2 < x - ⌊x⌋ then ⌊x⌋ + 1
  else if ⌊x⌋ % 2 = 0 then ⌊x⌋ else ⌊x⌋ + 1

/-- Integer power of two as a rational, for both signs of the exponent. -/
def pow2 (k : ℤ) : ℚ :=
  if 0 ≤ k then ((2 ^ k.toNat : ℕ) : ℚ) else (((2 ^ (-k).toNat : ℕ) : ℚ))⁻¹

/-- Fuel-driven binary logarithm on `Nat` (fuel first, so that the kernel can
evaluate it; `natIlog2 n` uses `n` itself as fuel). -/
def natBitAux : Nat → Nat → Nat
  | 0, _ => 0
  | f + 1, n => if n < 2 then 0 else natBitAux f (n / 2) + 1

/-- Binary logarithm: for `1 ≤ n`, `2 ^ natIlog2 n ≤ n < 2 ^ (natIlog2 n + 1)`. -/
def natIlog2 (n : Nat) : Nat := natBitAux n n

/-- Binade exponent of a nonzero rational: an `e` with `pow2 e ≤ |q|`,
computed from the bit lengths of numerator and denominator with a one-step
correction. -/
def ilog2q (q : ℚ) : ℤ :=
  if pow2 ((natIlog2 q.num.natAbs : ℤ) - (natIlog2 q.den : ℤ)) ≤ |q|
  then (natIlog2 q.num.natAbs : ℤ) - (natIlog2 q.den : ℤ)
  else (natIlog2 q.num.natAbs : ℤ) - (natIlog2 q.den : ℤ) - 1

/-- Round a rational to the nearest IEEE-754 double (53-bit significand,
round to nearest, ties to even).  Exponent range is unbounded: the Go values
involved never reach the overflow/subnormal ranges. -/
def rn53 (q : ℚ) : ℚ :=
  if q = 0 then 0
  else ((rne (q * pow2 (52 - ilog2q q)) : ℤ) : ℚ) * pow2 (ilog2q q - 52)

/-- The derived moving counter before integer conversion:
`math.Floor(float64(t) / float64(p))` with `t` the Unix seconds and `p` the
resolved period. -/
def derivedCounter (t : Int) (p : Nat) : Int :=
  ⌊rn53 (rn53 (t : ℚ) / rn53 (p : ℚ))⌋

/-- Go `uint64` conversion of an integer value obtained from `int64`
arithmetic: reduction modulo `2 ^ 64`. -/
def u64 (x : Int) : Nat := (x % (2 ^ 64 : Int)).toNat

/-- Go `int64` wrap of an integer: the representative in `[-2^63, 2^63)`. -/
def wrapS64 (x : Int) : Int := (x + 2 ^ 63) % 2 ^ 64 - 2 ^ 63

/-- Counter as computed by `GenerateCodeCustom`:
`uint64(math.Floor(float64(t.Unix()) / float64(opts.Period)))`. -/
def counterGen (t : Int) (p : Nat) : Nat := u64 (derivedCounter t p)

/-- Counter as computed by `ValidateCustom`:
`int64(math.Floor(float64(t.Unix()) / float64(opts.Period)))`. -/
def counterVal (t : Int) (p : Nat) : Int := wrapS64 (derivedCounter t p)

/-- The window of candidate counters of `ValidateCustom`: the base counter,
then for `i = 1 .. Skew` the pair `uint64(counter+i)`, `uint64(counter-i)`,
appended in loop order. -/
def windowCounters (t : Int) (opts : ValidateOpts) : List Nat :=
  let counter := counterVal t opts.period
  (List.range opts.skew).foldl
    (fun cs i => cs ++ [u64 (counter + (i + 1 : Nat)), u64 (counter - (i + 1 : Nat))])
    [u64 counter]

/-- Errors surfaced by the modelled external collaborators. -/
inductive OtpError where
  | decodeError
  | unsupportedAlgorithm
  | missingIssuer
  | missingAccountName
  | randError
deriving DecidableEq, Repr

/-- The candidate loop of `ValidateCustom`: query the HOTP validation
primitive `f` on each counter in order; an error aborts, a match returns
`true` immediately, an exhausted window yields `ok false`. -/
def validateLoop (f : Nat → Except OtpError Bool) : List Nat → Except OtpError Bool
  | [] => .ok false
  | c :: cs =>
    match f c with
    | .error e => .error e
    | .ok true => .ok true
    | .ok false => validateLoop f cs

/-- The candidate loop instrumented with the trace of counters actually
passed to the HOTP primitive, in order. -/
def runTrace (f : Nat → Except OtpError Bool) : List Nat → List Nat × Except OtpError Bool
  | [] => ([], .ok false)
  | c :: cs =>
    match f c with
    | .error e => ([c], .error e)
    | .ok true => ([c], .ok true)
    | .ok false =>
      let r := runTrace f cs
      (c :: r.1, r.2)

/-! ### The external HOTP primitive

Modelled from the spec: the `hotp` package is an external collaborator of
this core ("given a secret, a 64-bit counter, a digit count, and a
keyed-hash algorithm choice, it returns a fixed-length numeric passcode or
a boolean match").  Following RFC 4226 as the spec's reference semantics,
the model decodes the secret from unpadded base32, computes HMAC-SHA1 of
the 8-byte big-endian counter, applies dynamic truncation and renders the
zero-padded decimal passcode of exactly `digits` characters.  Only SHA1 is
given a concrete compression function; the spec treats the hash itself as
a black box. -/

/-- Big-endian byte rendering of a value in `n` bytes. -/
def beBytes (n : Nat) (v : Nat) : List Nat :=
  (List.range n).map (fun i => (v >>> (8 * (n - 1 - i))) % 256)

/-- Rotate a 32-bit word left by `n` bits. -/
def rotl32 (x n : Nat) : Nat := ((x <<< n) ||| (x >>> (32 - n))) % 2 ^ 32

/-- SHA-1 round constants. -/
def sha1K (t : Nat) : Nat :=
  if t < 20 then 0x5A827999 else if t < 40 then 0x6ED9EBA1
  else if t < 60 then 0x8F1BBCDC else 0xCA62C1D6

/-- SHA-1 round functions. -/
def sha1F (t b c d : Nat) : Nat :=
  if t < 20 then (b &&& c) ||| ((b ^^^ 0xFFFFFFFF) &&& d)
  else if t < 40 then b ^^^ c ^^^ d
  else if t < 60 then (b &&& c) ||| (b &&& d) ||| (c &&& d)
  else b ^^^ c ^^^ d

/-- SHA-1 message schedule, words packed into one big-endian natural number
(32 bits per word, word `j` of `n` at bit offset `32*(n-1-j)`): extend the 16
block words to 80 with `w[t] = rotl1(w[t-3] ^ w[t-8] ^ w[t-14] ^ w[t-16])`.
The fuel counts the words still to append. -/
def schedAux : Nat → Nat → Nat
  | 0, w => w
  | f + 1, w =>
    let n := 80 - (f + 1)
    schedAux f (w * 2 ^ 32 +
      rotl32 (((w >>> (32 * (n - 1 - (n - 3)))) % 2 ^ 32) ^^^
              ((w >>> (32 * (n - 1 - (n - 8)))) % 2 ^ 32) ^^^
              ((w >>> (32 * (n - 1 - (n - 14)))) % 2 ^ 32) ^^^
              ((w >>> (32 * (n - 1 - (n - 16)))) % 2 ^ 32)) 1)

/-- The 80 SHA-1 rounds over the packed schedule; the five working
registers are separate arguments and the result packs `a..e` into one
natural number (32 bits each).  The fuel counts the rounds left. -/
def sha1Rounds : Nat → Nat → Nat → Nat → Nat → Nat → Nat → Nat
  | 0, _, a, b, c, d, e => (((a * 2 ^ 32 + b) * 2 ^ 32 + c) * 2 ^ 32 + d) * 2 ^ 32 + e
  | f + 1, ws, a, b, c, d, e =>
    let t := 80 - (f + 1)
    sha1Rounds f ws
      ((rotl32 a 5 + sha1F t b c d + e + sha1K t + (ws >>> (32 * (79 - t))) % 2 ^ 32) % 2 ^ 32)
      a (rotl32 b 30) c d

/-- One SHA-1 compression over a 64-byte block: the block's bytes pack
big-endian into the 16 initial schedule words. -/
def sha1Block (h : List Nat) (block : List Nat) : List Nat :=
  let ws := schedAux 64 (block.foldl (fun a b => a * 256 + b) 0)
  let st := sha1Rounds 80 ws (h.getD 0 0) (h.getD 1 0) (h.getD 2 0) (h.getD 3 0) (h.getD 4 0)
  [(h.getD 0 0 + (st >>> 128) % 2 ^ 32) % 2 ^ 32,
   (h.getD 1 0 + (st >>> 96) % 2 ^ 32) % 2 ^ 32,
   (h.getD 2 0 + (st >>> 64) % 2 ^ 32) % 2 ^ 32,
   (h.getD 3 0 + (st >>> 32) % 2 ^ 32) % 2 ^ 32,
   (h.getD 4 0 + st % 2 ^ 32) % 2 ^ 32]

/-- Split a byte list into 64-byte blocks (fuel-driven). -/
def chunk64 : Nat → List Nat → List (List Nat)
  | 0, _ => []
  | _, [] => []
  | f + 1, l => l.take 64 :: chunk64 f (l.drop 64)

/-- SHA-1 padding: `0x80`, zeros, 8-byte big-endian bit length. -/
def sha1Pad (msg : List Nat) : List Nat :=
  msg ++ [0x80] ++ List.replicate ((55 + 64 - msg.length % 64) % 64) 0 ++
    beBytes 8 (8 * msg.length)

/-- SHA-1 digest (20 bytes) of a byte sequence. -/
def sha1 (msg : List Nat) : List Nat :=
  let padded := sha1Pad msg
  let h := (chunk64 (padded.length) padded).foldl sha1Block
    [0x67452301, 0xEFCDAB89, 0x98BADCFE, 0x10325476, 0xC3D2E1F0]
  h.foldr (fun w acc => beBytes 4 w ++ acc) []

/-- HMAC-SHA1 (RFC 2104, block size 64). -/
def hmacSha1 (key msg : List Nat) : List Nat :=
  let key := if 64 < key.length then sha1 key else key
  let key := key ++ List.replicate (64 - key.length) 0
  sha1 ((key.map (fun b => b ^^^ 0x5C)) ++ sha1 ((key.map (fun b => b ^^^ 0x36)) ++ msg))

/-- Value of one base32 character (RFC 4648 alphabet), if valid. -/
def b32val (c : Char) : Option Nat :=
  if 'A' ≤ c ∧ c ≤ 'Z' then some (c.toNat - 65)
  else if '2' ≤ c ∧ c ≤ '7' then some (c.toNat - 50 + 26)
  else none

/-- Character of a 5-bit value in the RFC 4648 base32 alphabet. -/
def b32chr (n : Nat) : Char :=
  if n < 26 then Char.ofNat (65 + n) else Char.ofNat (50 + (n - 26))

/-- Unpadded base32 decoding of a secret string (modelled from the spec's
"Base32 codec (consumed): encode/decode byte sequences to/from unpadded
base32 text"); an invalid character is a decode error. -/
def base32Decode (s : String) : Except OtpError (List Nat) :=
  match s.data.mapM b32val with
  | none => .error .decodeError
  | some vals =>
    .ok (beBytes (5 * vals.length / 8)
      ((vals.foldl (fun a x => a * 32 + x) 0) >>> (5 * vals.length % 8)))

/-- Unpadded base32 encoding of a byte sequence. -/
def base32Encode (bytes : List Nat) : String :=
  let nchars := (8 * bytes.length + 4) / 5
  let v := (bytes.foldl (fun a b => a * 256 + b) 0) <<< (5 * nchars - 8 * bytes.length)
  String.mk ((List.range nchars).map (fun i => b32chr ((v >>> (5 * (nchars - 1 - i))) % 32)))

/-- Zero-padded decimal passcode of exactly `digits` characters. -/
def padCode (n digits : Nat) : String :=
  let ds := Nat.toDigits 10 n
  String.mk (List.replicate (digits - ds.length) '0' ++ ds)

/-- The compression available to the modelled HOTP primitive: only SHA1 is
concrete; other choices are rejected (the spec keeps the hash abstract). -/
def hashFuncFor : Algorithm → Option (List Nat → List Nat → List Nat)
  | .sha1 => some hmacSha1
  | _ => none

/-- Modelled from the spec: the external `hotp.GenerateCodeCustom`
primitive — `generateHOTP(secret, counter, digits, algorithm) ->
passcode|error` — as RFC 4226: base32-decode the secret, MAC the 8-byte
big-endian counter, dynamically truncate and format `digits` decimal
characters. -/
def hotpGenerate (secret : String) (counter : Nat) (digits : Nat) (alg : Algorithm) :
    Except OtpError String := do
  let key ← base32Decode secret
  match hashFuncFor alg with
  | none => .error .unsupportedAlgorithm
  | some mac =>
    let digest := mac key (beBytes 8 counter)
    let off := digest.getD 19 0 &&& 0xF
    let v := ((digest.getD off 0 &&& 0x7F) <<< 24) ||| (digest.getD (off + 1) 0 <<< 16) |||
             (digest.getD (off + 2) 0 <<< 8) ||| digest.getD (off + 3) 0
    .ok (padCode (v % 10 ^ digits) digits)

/-- Modelled from the spec: the external `hotp.ValidateCustom` primitive —
`validateHOTP(passcode, counter, secret, digits, algorithm) -> bool|error` —
generates the passcode for the counter and compares; a generation error
propagates. -/
def hotpValidate (passcode : String) (counter : Nat) (secret : String)
    (digits : Nat) (alg : Algorithm) : Except OtpError Bool :=
  (hotpGenerate secret counter digits alg).map (fun g => decide (passcode = g))

/-- `GenerateCodeCustom` of the source: apply option functions, fill
defaults, derive the counter, delegate to the HOTP generation primitive. -/
def GenerateCodeCustom (secret : String) (t : Int) (fns : List ValidateOpt) :
    Except OtpError String :=
  let opts := resolveOpts fns
  hotpGenerate secret (counterGen t opts.period) opts.digits opts.algorithm

/-- `ValidateCustom` of the source: apply option functions, fill defaults,
build the skew window and run the candidate loop against the HOTP
validation primitive. -/
def ValidateCustom (passcode secret : String) (t : Int) (fns : List ValidateOpt) :
    Except OtpError Bool :=
  let opts := resolveOpts fns
  validateLoop (fun c => hotpValidate passcode c secret opts.digits opts.algorithm)
    (windowCounters t opts)

/-! ### Key provisioning (`Generate`)

`Generate` validates Issuer/AccountName, fills defaults, encodes an explicit
or freshly drawn secret, and assembles the `otpauth://totp/...` URI.  The
random source is the pluggable `io.Reader`: a read of `n` bytes yields the
bytes actually written and an optional error; the source's byte count is
*not* inspected by `Generate` (it discards it: `_, err := opts.Rand.Read`).
`url.Values.Encode` is modelled faithfully: keys sorted bytewise
ascending, keys and values query-escaped, joined with `&`/`=`.  The final
`otp.NewKeyFromURL` call is an external collaborator; the key object it
parses is modelled as the structured URI record itself. -/

/-- A pluggable random byte source: a request of `n` bytes returns the bytes
written into the buffer (at most `n` used) and an optional error. -/
def RandSource := Nat → List Nat × Option OtpError

/-- `GenerateOpts` of the source. -/
structure GenerateOpts where
  issuer : String
  accountName : String
  period : Nat
  secretSize : Nat
  secret : List Nat
  digits : Nat
  algorithm : Algorithm
  rand : RandSource

/-- The structured `otpauth` URI record (the provisioning key). -/
structure UrlRec where
  scheme : String
  host : String
  path : String
  rawQuery : String
deriving DecidableEq, Repr

/-- UTF-8 bytes of one character. -/
def charUtf8 (c : Char) : List Nat :=
  let n := c.toNat
  if n < 0x80 then [n]
  else if n < 0x800 then [0xC0 ||| (n >>> 6), 0x80 ||| (n &&& 0x3F)]
  else if n < 0x10000 then
    [0xE0 ||| (n >>> 12), 0x80 ||| ((n >>> 6) &&& 0x3F), 0x80 ||| (n &&& 0x3F)]
  else
    [0xF0 ||| (n >>> 18), 0x80 ||| ((n >>> 12) &&& 0x3F),
     0x80 ||| ((n >>> 6) &&& 0x3F), 0x80 ||| (n &&& 0x3F)]

/-- UTF-8 bytes of a string. -/
def strBytes (s : String) : List Nat := s.data.flatMap charUtf8

/-- Uppercase hexadecimal digit. -/
def hexDigit (n : Nat) : Char :=
  if n < 10 then Char.ofNat (48 + n) else Char.ofNat (55 + n)

/-- Go `url.QueryEscape` on one byte: alphanumerics and `-_.~` kept, space
becomes `+`, every other byte becomes `%XX`. -/
def escQueryByte (b : Nat) : List Char :=
  if (65 ≤ b ∧ b ≤ 90) ∨ (97 ≤ b ∧ b ≤ 122) ∨ (48 ≤ b ∧ b ≤ 57) ∨
      b = 45 ∨ b = 95 ∨ b = 46 ∨ b = 126 then [Char.ofNat b]
  else if b = 32 then ['+']
  else ['%', hexDigit (b / 16), hexDigit (b % 16)]

/-- Go `url.QueryEscape` of a string (byte-wise over its UTF-8 bytes). -/
def queryEscape (s : String) : String :=
  String.mk ((strBytes s).flatMap escQueryByte)

/-- Bytewise lexicographic order on strings (Go `sort.Strings` order). -/
def lexLe : List Char → List Char → Bool
  | [], _ => true
  | _ :: _, [] => false
  | a :: as, b :: bs =>
    if a.toNat < b.toNat then true
    else if b.toNat < a.toNat then false
    else lexLe as bs

/-- `url.Values.Set`: replace the value of an existing key or append. -/
def vSet (l : List (String × String)) (k v : String) : List (String × String) :=
  if l.any (fun kv => kv.1 = k) then l.map (fun kv => if kv.1 = k then (k, v) else kv)
  else l ++ [(k, v)]

/-- Insert into a key-sorted association list. -/
def insertKV (kv : String × String) : List (String × String) → List (String × String)
  | [] => [kv]
  | x :: xs => if lexLe kv.1.data x.1.data then kv :: x :: xs else x :: insertKV kv xs

/-- Sort an association list by key (Go `url.Values.Encode` sorts keys). -/
def sortKV (l : List (String × String)) : List (String × String) := l.foldr insertKV []

/-- Go `url.Values.Encode`: keys sorted ascending, each pair rendered as
`escape(k)=escape(v)`, pairs joined with `&`. -/
def encodeValues (l : List (String × String)) : String :=
  String.intercalate "&" ((sortKV l).map (fun kv => queryEscape kv.1 ++ "=" ++ queryEscape kv.2))

/-- Decimal rendering of a natural number (Go `strconv.FormatUint`). -/
def natStr (n : Nat) : String := String.mk (Nat.toDigits 10 n)

/-- URI assembly of `Generate`: the five `v.Set` calls in source order
(secret, issuer, period, algorithm, digits) followed by the `url.URL`
construction with the encoded query. -/
def assembleURI (issuer account secretB32 : String) (period digits : Nat)
    (alg : Algorithm) : UrlRec :=
  let v := vSet (vSet (vSet (vSet (vSet [] "secret" secretB32) "issuer" issuer)
    "period" (natStr period)) "algorithm" alg.name) "digits" (natStr digits)
  { scheme := "otpauth", host := "totp",
    path := "/" ++ issuer ++ ":" ++ account, rawQuery := encodeValues v }

/-- `Generate` of the source, instrumented with the list of byte counts
requested from the random source.  Checks Issuer and AccountName first,
fills defaults (Period 30, SecretSize 20, Digits 6), base32-encodes the
explicit secret if one is supplied, otherwise draws `SecretSize` bytes —
only the source's error is checked, not its byte count (`_, err :=
opts.Rand.Read(secret)`); unwritten buffer bytes stay zero. -/
def GenerateT (opts : GenerateOpts) : Except OtpError UrlRec × List Nat :=
  if opts.issuer = "" then (.error .missingIssuer, [])
  else if opts.accountName = "" then (.error .missingAccountName, [])
  else
    let period := if opts.period = 0 then 30 else opts.period
    let secretSize := if opts.secretSize = 0 then 20 else opts.secretSize
    let digits := if opts.digits = 0 then 6 else opts.digits
    if opts.secret.length ≠ 0 then
      (.ok (assembleURI opts.issuer opts.accountName (base32Encode opts.secret)
        period digits opts.algorithm), [])
    else
      let r := opts.rand secretSize
      match r.2 with
      | some e => (.error e, [secretSize])
      | none =>
        let buf := r.1.take secretSize ++
          List.replicate (secretSize - min r.1.length secretSize) 0
        (.ok (assembleURI opts.issuer opts.accountName (base32Encode buf)
          period digits opts.algorithm), [secretSize])

/-- `Generate` of the source: the result alone. -/
def Generate (opts : GenerateOpts) : Except OtpError UrlRec := (GenerateT opts).1

/-! ### Helper lemmas on the validation loop and the window -/

theorem validateLoop_first_error (f : Nat → Except OtpError Bool) :
    ∀ (l1 : List Nat) (c : Nat) (l2 : List Nat) (e : OtpError),
      (∀ x ∈ l1, f x = .ok false) → f c = .error e →
      validateLoop f (l1 ++ c :: l2) = .error e ∧
        (runTrace f (l1 ++ c :: l2)).1 = l1 ++ [c] := by
  intro l1
  induction l1 with
  | nil =>
    intro c l2 e _ hc
    simp [validateLoop, runTrace, hc]
  | cons x xs ih =>
    intro c l2 e h1 hc
    have hx : f x = .ok false := h1 x (List.mem_cons_self x xs)
    have ihh := ih c l2 e (fun y hy => h1 y (List.mem_cons_of_mem x hy)) hc
    simp only [List.cons_append, validateLoop, runTrace, hx]
    exact ⟨ihh.1, by simp [ihh.2]⟩

theorem range_foldl_append {β : Type} (F : Nat → List β) :
    ∀ (s : Nat) (acc : List β),
      (List.range s).foldl (fun cs i => cs ++ F i) acc = acc ++ (List.range s).flatMap F := by
  intro s
  induction s with
  | zero => intro acc; simp
  | succ n ih =>
    intro acc
    rw [List.range_succ, List.foldl_append, ih]
    simp

theorem windowCounters_eq (t : Int) (opts : ValidateOpts) :
    windowCounters t opts =
      u64 (counterVal t opts.period) ::
        (List.range opts.skew).flatMap
          (fun i => [u64 (counterVal t opts.period + (i + 1 : Nat)),
                     u64 (counterVal t opts.period - (i + 1 : Nat))]) := by
  unfold windowCounters
  rw [range_foldl_append]
  rfl

theorem defaultOpts_period (o : ValidateOpts) :
    o.defaultOpts.period = if o.period = 0 then 30 else o.period := by
  by_cases h1 : o.skew = 0 <;> by_cases h2 : o.digits = 0 <;> by_cases h3 : o.period = 0 <;>
    simp [ValidateOpts.defaultOpts, h1, h2, h3]

theorem defaultOpts_skew (o : ValidateOpts) :
    o.defaultOpts.skew = if o.skew = 0 then 30 else o.skew := by
  by_cases h1 : o.skew = 0 <;> by_cases h2 : o.digits = 0 <;> by_cases h3 : o.period = 0 <;>
    simp [ValidateOpts.defaultOpts, h1, h2, h3]

theorem defaultOpts_digits (o : ValidateOpts) :
    o.defaultOpts.digits = if o.digits = 0 then 6 else o.digits := by
  by_cases h1 : o.skew = 0 <;> by_cases h2 : o.digits = 0 <;> by_cases h3 : o.period = 0 <;>
    simp [ValidateOpts.defaultOpts, h1, h2, h3]

theorem defaultOpts_algorithm (o : ValidateOpts) :
    o.defaultOpts.algorithm = o.algorithm := by
  by_cases h1 : o.skew = 0 <;> by_cases h2 : o.digits = 0 <;> by_cases h3 : o.period = 0 <;>
    simp [ValidateOpts.defaultOpts, h1, h2, h3]

theorem resolved_skew_pos (o : ValidateOpts) : 0 < o.defaultOpts.skew := by
  rw [defaultOpts_skew]
  split_ifs with h
  · omega
  · exact Nat.pos_of_ne_zero h

/-- The HOTP validation primitive as `ValidateCustom` invokes it: all
arguments fixed by the call except the candidate counter. -/
def hotpOracle (passcode secret : String) (opts : ValidateOpts) : Nat → Except OtpError Bool :=
  fun c => hotpValidate passcode c secret opts.digits opts.algorithm

theorem ValidateCustom_eq (passcode secret : String) (t : Int) (fns : List ValidateOpt) :
    ValidateCustom passcode secret t fns =
      validateLoop (hotpOracle passcode secret (resolveOpts fns))
        (windowCounters t (resolveOpts fns)) := rfl

/-! ### Concrete HOTP codes of the example secret

One kernel-checked HMAC-SHA1 evaluation per counter; every later concrete
fact about the example secret is assembled from these by rewriting. -/

theorem hotp_code_1 : hotpGenerate "JBSWY3DPEHPK3PXP" 1 6 .sha1 = .ok "996554" := by
  with_unfolding_all decide

theorem hotp_code_2 : hotpGenerate "JBSWY3DPEHPK3PXP" 2 6 .sha1 = .ok "602287" := by
  with_unfolding_all decide

theorem hotp_code_3 : hotpGenerate "JBSWY3DPEHPK3PXP" 3 6 .sha1 = .ok "143627" := by
  with_unfolding_all decide

theorem hotp_code_4 : hotpGenerate "JBSWY3DPEHPK3PXP" 4 6 .sha1 = .ok "960129" := by
  with_unfolding_all decide

theorem hotp_code_5 : hotpGenerate "JBSWY3DPEHPK3PXP" 5 6 .sha1 = .ok "768897" := by
  with_unfolding_all decide

/-- The oracle result at a counter follows from the generated code there. -/
theorem hotpOracle_eq_code (pc secret : String) (opts : ValidateOpts) (c : Nat) (g : String)
    (hd : opts.digits = 6) (ha : opts.algorithm = .sha1)
    (h : hotpGenerate secret c 6 .sha1 = .ok g) :
    hotpOracle pc secret opts c = .ok (decide (pc = g)) := by
  unfold hotpOracle hotpValidate
  rw [hd, ha, h]
  rfl

/-- The example code of counter 1 is generated at time 59 under any options
resolving to period 30, digits 6, SHA1. -/
theorem generateCode_59 (fns : List ValidateOpt)
    (hp : (resolveOpts fns).period = 30) (hd : (resolveOpts fns).digits = 6)
    (ha : (resolveOpts fns).algorithm = .sha1) :
    GenerateCodeCustom "JBSWY3DPEHPK3PXP" 59 fns = .ok "996554" := by
  show hotpGenerate "JBSWY3DPEHPK3PXP" (counterGen 59 (resolveOpts fns).period)
    (resolveOpts fns).digits (resolveOpts fns).algorithm = .ok "996554"
  rw [hp, hd, ha]
  have hc : counterGen 59 30 = 1 := by with_unfolding_all decide
  rw [hc]
  exact hotp_code_1

theorem oracle0_match_1 :
    hotpOracle "996554" "JBSWY3DPEHPK3PXP" (resolveOpts [WithSkew 0]) 1 = .ok true :=
  (hotpOracle_eq_code "996554" "JBSWY3DPEHPK3PXP" (resolveOpts [WithSkew 0]) 1 "996554"
    (by decide) (by decide) hotp_code_1).trans (by decide)

theorem oracle0_miss_2 :
    hotpOracle "996554" "JBSWY3DPEHPK3PXP" (resolveOpts [WithSkew 0]) 2 = .ok false :=
  (hotpOracle_eq_code "996554" "JBSWY3DPEHPK3PXP" (resolveOpts [WithSkew 0]) 2 "602287"
    (by decide) (by decide) hotp_code_2).trans (by decide)

theorem oracle0_miss_3 :
    hotpOracle "996554" "JBSWY3DPEHPK3PXP" (resolveOpts [WithSkew 0]) 3 = .ok false :=
  (hotpOracle_eq_code "996554" "JBSWY3DPEHPK3PXP" (resolveOpts [WithSkew 0]) 3 "143627"
    (by decide) (by decide) hotp_code_3).trans (by decide)

theorem oracle0_miss_4 :
    hotpOracle "996554" "JBSWY3DPEHPK3PXP" (resolveOpts [WithSkew 0]) 4 = .ok false :=
  (hotpOracle_eq_code "996554" "JBSWY3DPEHPK3PXP" (resolveOpts [WithSkew 0]) 4 "960129"
    (by decide) (by decide) hotp_code_4).trans (by decide)

theorem oracle0_miss_5 :
    hotpOracle "996554" "JBSWY3DPEHPK3PXP" (resolveOpts [WithSkew 0]) 5 = .ok false :=
  (hotpOracle_eq_code "996554" "JBSWY3DPEHPK3PXP" (resolveOpts [WithSkew 0]) 5 "768897"
    (by decide) (by decide) hotp_code_5).trans (by decide)

/-- Validation of the counter-1 code at time 59 (resolved skew 30): the
first window candidate is counter 1 and matches. -/
theorem validate59_helper :
    ValidateCustom "996554" "JBSWY3DPEHPK3PXP" 59 [WithSkew 0] = .ok true := by
  have htake : (windowCounters 59 (resolveOpts [WithSkew 0])).take 1 = [1] := by
    with_unfolding_all decide
  have hsplit : windowCounters 59 (resolveOpts [WithSkew 0]) =
      [1] ++ (windowCounters 59 (resolveOpts [WithSkew 0])).drop 1 := by
    rw [← htake, List.take_append_drop]
  rw [ValidateCustom_eq, hsplit]
  simp [validateLoop, oracle0_match_1]

/-- Validation of the counter-1 code at time 90 (resolved skew 30): the
window starts `3, 4, 2, 5, 1, …` and the fifth candidate matches. -/
theorem validate90_helper :
    ValidateCustom "996554" "JBSWY3DPEHPK3PXP" 90 [WithSkew 0] = .ok true := by
  have htake : (windowCounters 90 (resolveOpts [WithSkew 0])).take 5 = [3, 4, 2, 5, 1] := by
    with_unfolding_all decide
  have hsplit : windowCounters 90 (resolveOpts [WithSkew 0]) =
      [3, 4, 2, 5, 1] ++ (windowCounters 90 (resolveOpts [WithSkew 0])).drop 5 := by
    rw [← htake, List.take_append_drop]
  rw [ValidateCustom_eq, hsplit]
  simp [validateLoop, oracle0_miss_3, oracle0_miss_4, oracle0_miss_2, oracle0_miss_5,
    oracle0_match_1]

/-! ### Claims about the validation window (C1, C2) -/

/-- **C2.** If the HOTP primitive reports an error on a candidate (every
earlier candidate of the window having reported no match), `ValidateCustom`
returns that error immediately and no later candidate is queried: the trace
of HOTP calls stops at the erroring candidate. -/
theorem validateCustom_error_propagation (passcode secret : String) (t : Int)
    (fns : List ValidateOpt) (l1 : List Nat) (c : Nat) (l2 : List Nat) (e : OtpError)
    (hw : windowCounters t (resolveOpts fns) = l1 ++ c :: l2)
    (h1 : ∀ x ∈ l1, hotpOracle passcode secret (resolveOpts fns) x = .ok false)
    (hc : hotpOracle passcode secret (resolveOpts fns) c = .error e) :
    ValidateCustom passcode secret t fns = .error e ∧
      (runTrace (hotpOracle passcode secret (resolveOpts fns))
        (windowCounters t (resolveOpts fns))).1 = l1 ++ [c] := by
  have h := validateLoop_first_error (hotpOracle passcode secret (resolveOpts fns)) l1 c l2 e h1 hc
  exact ⟨by rw [ValidateCustom_eq, hw]; exact h.1, by rw [hw]; exact h.2⟩

/-- Witness for C2 at a concrete input: an undecodable secret makes the
HOTP primitive error on the very first candidate, and `ValidateCustom`
propagates the error with a single HOTP call traced. -/
theorem validateCustom_error_propagation_witness :
    ValidateCustom "x" "1" 0 [WithSkew 1] = .error .decodeError ∧
      (runTrace (hotpOracle "x" "1" (resolveOpts [WithSkew 1]))
        (windowCounters 0 (resolveOpts [WithSkew 1]))).1 = [] ++ [u64 0] :=
  validateCustom_error_propagation "x" "1" 0 [WithSkew 1] [] (u64 0)
    [u64 1, u64 (-1)] .decodeError
    (by with_unfolding_all decide)
    (by simp)
    (by with_unfolding_all decide)

/-! ### Claim about default filling (C4) -/

/-- **C4.** After the option functions are applied, the default-filling step
turns a zero Period into 30, a zero Skew into 30 (the same constant as the
period default, not a small window size), a zero Digits into 6, and leaves
an Algorithm at its zero value (SHA1) equal to SHA1. -/
theorem defaultFill_values (fns : List ValidateOpt) :
    ((applyOpts fns).period = 0 → (resolveOpts fns).period = 30) ∧
    ((applyOpts fns).skew = 0 → (resolveOpts fns).skew = 30) ∧
    ((applyOpts fns).digits = 0 → (resolveOpts fns).digits = 6) ∧
    ((applyOpts fns).algorithm = Algorithm.sha1 →
      (resolveOpts fns).algorithm = Algorithm.sha1) := by
  unfold resolveOpts
  refine ⟨fun h => ?_, fun h => ?_, fun h => ?_, fun h => ?_⟩
  · rw [defaultOpts_period, h]; rfl
  · rw [defaultOpts_skew, h]; rfl
  · rw [defaultOpts_digits, h]; rfl
  · rw [defaultOpts_algorithm, h]

/-- Witness for C4: with no option functions, every field is at its zero
value and resolves to Period 30, Skew 30, Digits 6, Algorithm SHA1. -/
theorem defaultFill_values_witness :
    (applyOpts []).period = 0 ∧ (resolveOpts []).period = 30 ∧
    (applyOpts []).skew = 0 ∧ (resolveOpts []).skew = 30 ∧
    (applyOpts []).digits = 0 ∧ (resolveOpts []).digits = 6 ∧
    (applyOpts []).algorithm = Algorithm.sha1 ∧
    (resolveOpts []).algorithm = Algorithm.sha1 :=
  ⟨rfl, (defaultFill_values []).1 rfl, rfl, (defaultFill_values []).2.1 rfl,
   rfl, (defaultFill_values []).2.2.1 rfl, rfl, (defaultFill_values []).2.2.2 rfl⟩

/-! ### Claims about `Generate` (C6, C7, C8) -/

/-- **C6.** `Generate` fails with the missing-issuer error whenever Issuer is
empty, and with the missing-account-name error whenever AccountName is empty
and Issuer is not — in both cases for every other field value, with no
default filled into the result and no byte requested from the random
source (the read trace is empty). -/
theorem generate_missing_checks (opts : GenerateOpts) :
    (opts.issuer = "" → GenerateT opts = (.error .missingIssuer, [])) ∧
    (opts.issuer ≠ "" → opts.accountName = "" →
      GenerateT opts = (.error .missingAccountName, [])) := by
  constructor
  · intro h
    unfold GenerateT
    rw [if_pos h]
  · intro h1 h2
    unfold GenerateT
    rw [if_neg h1, if_pos h2]

/-- Witness for C6: an empty Issuer and an empty AccountName (with Issuer
set) each produce their error with no random read, whatever the other
fields. -/
theorem generate_missing_checks_witness :
    GenerateT { issuer := "", accountName := "alice", period := 7, secretSize := 3,
                secret := [1], digits := 8, algorithm := .sha256,
                rand := fun _ => ([], none) } = (.error .missingIssuer, []) ∧
    GenerateT { issuer := "Example", accountName := "", period := 7, secretSize := 3,
                secret := [1], digits := 8, algorithm := .sha256,
                rand := fun _ => ([], none) } = (.error .missingAccountName, []) :=
  ⟨(generate_missing_checks _).1 rfl,
   (generate_missing_checks _).2 (by decide) rfl⟩

/-- Counterexample to C7 as stated: a random source that returns zero of the
twenty requested bytes but no error does not make `Generate` fail — the
source's byte count is discarded (`_, err := opts.Rand.Read(secret)`), the
buffer keeps its zero bytes and a key is returned. -/
theorem generate_short_read_not_detected :
    Generate { issuer := "Example", accountName := "alice", period := 0, secretSize := 0,
               secret := [], digits := 0, algorithm := .sha1,
               rand := fun _ => ([], none) } =
      .ok { scheme := "otpauth", host := "totp", path := "/Example:alice",
            rawQuery := "algorithm=SHA1&digits=6&issuer=Example&period=30&secret=AAAAAAAAAAAAAAAAAAAAAAAAAAAAAAAA" } := by
  with_unfolding_all decide

/-- **C7 (amended).** With no explicit Secret, if the random source returns
an error for the requested `SecretSize` (defaulted to 20) bytes, `Generate`
fails with that error, after exactly that one read; the byte count of the
read is not checked. -/
theorem generate_rand_error_propagates (opts : GenerateOpts) (e : OtpError)
    (h1 : opts.issuer ≠ "") (h2 : opts.accountName ≠ "") (h3 : opts.secret = [])
    (h4 : (opts.rand (if opts.secretSize = 0 then 20 else opts.secretSize)).2 = some e) :
    GenerateT opts = (.error e, [if opts.secretSize = 0 then 20 else opts.secretSize]) := by
  have hlen : ¬opts.secret.length ≠ 0 := by simp [h3]
  unfold GenerateT
  rw [if_neg h1, if_neg h2, if_neg hlen]
  simp only [h4]

/-- Witness for the amended C7: an erroring random source aborts `Generate`
with that error after a single 20-byte read request. -/
theorem generate_rand_error_propagates_witness :
    GenerateT { issuer := "Example", accountName := "alice", period := 0, secretSize := 0,
                secret := [], digits := 0, algorithm := .sha1,
                rand := fun _ => ([], some .randError) } = (.error .randError, [20]) :=
  generate_rand_error_propagates _ .randError (by decide) (by decide) rfl rfl

/-- Counterexample to C8 as stated: the query parameters of the assembled
URI are not in the order `secret, issuer, period, algorithm, digits` —
`url.Values.Encode` sorts keys alphabetically. -/
theorem generate_query_order_counterexample :
    Generate { issuer := "Example", accountName := "alice", period := 0, secretSize := 0,
               secret := [72, 101, 108, 108, 111, 33, 222, 173, 190, 239], digits := 0,
               algorithm := .sha1, rand := fun _ => ([], none) } =
      .ok { scheme := "otpauth", host := "totp", path := "/Example:alice",
            rawQuery := "algorithm=SHA1&digits=6&issuer=Example&period=30&secret=JBSWY3DPEHPK3PXP" } ∧
    "algorithm=SHA1&digits=6&issuer=Example&period=30&secret=JBSWY3DPEHPK3PXP" ≠
      "secret=JBSWY3DPEHPK3PXP&issuer=Example&period=30&algorithm=SHA1&digits=6" := by
  constructor
  · with_unfolding_all decide
  · decide

/-- **C8 (amended).** Every successful `Generate` produces the record with
scheme `otpauth`, host `totp`, path `/<Issuer>:<AccountName>`, and exactly
the five query parameters in alphabetical key order
`algorithm, digits, issuer, period, secret`, each value query-escaped;
`secret` is the unpadded base32 encoding of the explicit Secret bytes when
supplied — with no random read — and of the drawn buffer otherwise. -/
theorem generate_uri_shape (opts : GenerateOpts)
    (h1 : opts.issuer ≠ "") (h2 : opts.accountName ≠ "") :
    (opts.secret.length ≠ 0 →
      GenerateT opts = (.ok
        { scheme := "otpauth", host := "totp",
          path := "/" ++ opts.issuer ++ ":" ++ opts.accountName,
          rawQuery := String.intercalate "&"
            ["algorithm=" ++ queryEscape opts.algorithm.name,
             "digits=" ++ queryEscape (natStr (if opts.digits = 0 then 6 else opts.digits)),
             "issuer=" ++ queryEscape opts.issuer,
             "period=" ++ queryEscape (natStr (if opts.period = 0 then 30 else opts.period)),
             "secret=" ++ queryEscape (base32Encode opts.secret)] }, [])) ∧
    (opts.secret.length = 0 →
      (opts.rand (if opts.secretSize = 0 then 20 else opts.secretSize)).2 = none →
      GenerateT opts = (.ok
        { scheme := "otpauth", host := "totp",
          path := "/" ++ opts.issuer ++ ":" ++ opts.accountName,
          rawQuery := String.intercalate "&"
            ["algorithm=" ++ queryEscape opts.algorithm.name,
             "digits=" ++ queryEscape (natStr (if opts.digits = 0 then 6 else opts.digits)),
             "issuer=" ++ queryEscape opts.issuer,
             "period=" ++ queryEscape (natStr (if opts.period = 0 then 30 else opts.period)),
             "secret=" ++ queryEscape (base32Encode
               ((opts.rand (if opts.secretSize = 0 then 20 else opts.secretSize)).1.take
                   (if opts.secretSize = 0 then 20 else opts.secretSize) ++
                 List.replicate ((if opts.secretSize = 0 then 20 else opts.secretSize) -
                   min (opts.rand (if opts.secretSize = 0 then 20 else opts.secretSize)).1.length
                     (if opts.secretSize = 0 then 20 else opts.secretSize)) 0))] },
        [if opts.secretSize = 0 then 20 else opts.secretSize])) := by
  constructor
  · intro hs
    unfold GenerateT
    rw [if_neg h1, if_neg h2, if_pos hs]
    rfl
  · intro hs hr
    have hlen : ¬opts.secret.length ≠ 0 := by simp [hs]
    unfold GenerateT
    rw [if_neg h1, if_neg h2, if_neg hlen]
    simp only [hr]
    rfl

/-- Witness for the amended C8: a concrete explicit-secret call yields the
fully evaluated URI record with alphabetically ordered parameters and no
random read. -/
theorem generate_uri_shape_witness :
    GenerateT { issuer := "Example", accountName := "alice@example.com", period := 0,
                secretSize := 0, secret := [72, 101, 108, 108, 111, 33, 222, 173, 190, 239],
                digits := 0, algorithm := .sha1, rand := fun _ => ([], none) } =
      (.ok { scheme := "otpauth", host := "totp", path := "/Example:alice@example.com",
             rawQuery := "algorithm=SHA1&digits=6&issuer=Example&period=30&secret=JBSWY3DPEHPK3PXP" },
       []) :=
  (generate_uri_shape _ (by decide) (by decide)).1 (by decide)

/-! ### Round-trip (C9) and the worked example (C5) -/

theorem u64_wrapS64 (x : Int) : u64 (wrapS64 x) = u64 x := by
  unfold u64 wrapS64
  congr 1
  omega

/-- **C9.** A passcode produced by `GenerateCodeCustom` for a secret, a time
and options is accepted by `ValidateCustom` with the same secret, time and
options: the generation counter heads the validation window and the HOTP
primitive matches the passcode against itself there, short-circuiting to
`(true, nil)`. -/
theorem generate_validate_roundtrip (secret : String) (t : Int)
    (fns : List ValidateOpt) (pc : String)
    (h : GenerateCodeCustom secret t fns = .ok pc) :
    ValidateCustom pc secret t fns = .ok true := by
  have hu : u64 (counterVal t (resolveOpts fns).period) =
      counterGen t (resolveOpts fns).period := by
    unfold counterVal counterGen
    exact u64_wrapS64 _
  have h' : hotpGenerate secret (counterGen t (resolveOpts fns).period)
      (resolveOpts fns).digits (resolveOpts fns).algorithm = .ok pc := h
  have hc : hotpOracle pc secret (resolveOpts fns)
      (u64 (counterVal t (resolveOpts fns).period)) = .ok true := by
    unfold hotpOracle hotpValidate
    rw [hu, h']
    simp [Except.map]
  rw [ValidateCustom_eq, windowCounters_eq]
  simp [validateLoop, hc]

/-- Witness for C9: the code generated for the example secret at time 59 is
"996554" and validates at the same time with the same options. -/
theorem generate_validate_roundtrip_witness :
    GenerateCodeCustom "JBSWY3DPEHPK3PXP" 59 [WithSkew 1] = .ok "996554" ∧
    ValidateCustom "996554" "JBSWY3DPEHPK3PXP" 59 [WithSkew 1] = .ok true :=
  have h : GenerateCodeCustom "JBSWY3DPEHPK3PXP" 59 [WithSkew 1] = .ok "996554" :=
    generateCode_59 [WithSkew 1] (by decide) (by decide) (by decide)
  ⟨h, generate_validate_roundtrip "JBSWY3DPEHPK3PXP" 59 [WithSkew 1] "996554" h⟩

/-- Counterexample to C5 as stated: validating the counter-1 passcode at
time 90 with `Skew = 0` requested does **not** return false — the
default-filling step rewrites a zero Skew to 30, and counter 1 lies inside
the 30-wide window around the base counter 3, so validation matches. -/
theorem rfc_example_time90_counterexample :
    ValidateCustom "996554" "JBSWY3DPEHPK3PXP" 90 [WithSkew 0] = .ok true :=
  validate90_helper

/-- **C5 (amended).** With the secret decoding from base32
`JBSWY3DPEHPK3PXP`, time Unix 59, Period 30, Digits 6, SHA1, the derived
counter is 1 and generation yields the fixed six-digit passcode "996554";
validating that passcode at time 59 with Skew 0 requested returns true —
but a requested Skew of 0 is rewritten to 30 by the default filling, so
validating at time 90 (one full period beyond) also returns true rather
than false. -/
theorem rfc_example_scenario :
    counterGen 59 (resolveOpts [WithSkew 0]).period = 1 ∧
    GenerateCodeCustom "JBSWY3DPEHPK3PXP" 59 [WithSkew 0] = .ok "996554" ∧
    ValidateCustom "996554" "JBSWY3DPEHPK3PXP" 59 [WithSkew 0] = .ok true ∧
    (resolveOpts [WithSkew 0]).skew = 30 ∧
    ValidateCustom "996554" "JBSWY3DPEHPK3PXP" 90 [WithSkew 0] = .ok true :=
  ⟨by with_unfolding_all decide,
   generateCode_59 [WithSkew 0] (by decide) (by decide) (by decide),
   validate59_helper,
   by decide,
   validate90_helper⟩

/-! ### Negative window candidates wrap (C10) -/

theorem natBitAux_bracket :
    ∀ f n : Nat, n ≤ f → 1 ≤ n →
      2 ^ natBitAux f n ≤ n ∧ n < 2 ^ (natBitAux f n + 1) := by
  intro f
  induction f with
  | zero => intro n h1 h2; omega
  | succ f ih =>
    intro n h1 h2
    by_cases hn : n < 2
    · have hv : natBitAux (f + 1) n = 0 := by simp [natBitAux, hn]
      rw [hv]
      simp
      omega
    · have hv : natBitAux (f + 1) n = natBitAux f (n / 2) + 1 := by
        simp [natBitAux, hn]
      have hrec := ih (n / 2) (by omega) (by omega)
      rw [hv]
      obtain ⟨ha, hb⟩ := hrec
      rw [pow_succ, pow_succ]
      rw [pow_succ] at hb
      omega

theorem natIlog2_bracket (n : Nat) (h : 1 ≤ n) :
    2 ^ natIlog2 n ≤ n ∧ n < 2 ^ (natIlog2 n + 1) :=
  natBitAux_bracket n n le_rfl h

theorem pow2_eq_zpow (k : ℤ) : pow2 k = (2 : ℚ) ^ k := by
  unfold pow2
  split_ifs with h
  · rw [Nat.cast_pow, ← zpow_natCast, Int.toNat_of_nonneg h]
    norm_num
  · rw [Nat.cast_pow, ← zpow_natCast, Int.toNat_of_nonneg (by omega : (0 : ℤ) ≤ -k)]
    rw [← zpow_neg]
    norm_num

theorem pow2_pos (k : ℤ) : 0 < pow2 k := by
  rw [pow2_eq_zpow]
  positivity

theorem pow2_mul (a b : ℤ) : pow2 a * pow2 b = pow2 (a + b) := by
  rw [pow2_eq_zpow, pow2_eq_zpow, pow2_eq_zpow, ← zpow_add₀ (by norm_num : (2 : ℚ) ≠ 0)]

theorem rne_dist (x : ℚ) : |(rne x : ℚ) - x| ≤ 1 / 2 := by
  have h0 : (0 : ℚ) ≤ x - ⌊x⌋ := by
    have := Int.floor_le x
    linarith
  have h1 : x - ⌊x⌋ < 1 := by
    have := Int.lt_floor_add_one x
    linarith
  unfold rne
  split_ifs with hlt hgt hev
  · push_cast
    rw [abs_le]
    constructor <;> linarith
  · push_cast
    rw [abs_le]
    constructor <;> linarith
  · push_cast
    rw [abs_le]
    constructor <;> linarith
  · push_cast
    rw [abs_le]
    constructor <;> linarith

theorem rne_intCast (n : ℤ) : rne (n : ℚ) = n := by
  unfold rne
  rw [Int.floor_intCast]
  simp

theorem natPow_cast_q (n : ℕ) : ((2 ^ n : ℕ) : ℚ) = (2 : ℚ) ^ (n : ℤ) := by
  rw [zpow_natCast, Nat.cast_pow, Nat.cast_ofNat]

theorem abs_rat_eq_natAbs_div_den (q : ℚ) :
    |q| = (q.num.natAbs : ℚ) / (q.den : ℚ) := by
  have hdenpos : (0 : ℚ) < (q.den : ℚ) := by exact_mod_cast q.den_pos
  calc |q| = |(q.num : ℚ) / (q.den : ℚ)| := by rw [Rat.num_div_den]
    _ = |(q.num : ℚ)| / |(q.den : ℚ)| := abs_div _ _
    _ = (q.num.natAbs : ℚ) / (q.den : ℚ) := by
          rw [Int.cast_natAbs, Int.cast_abs, abs_of_pos hdenpos]

theorem pow2_ilog2q_le (q : ℚ) (h : q ≠ 0) : pow2 (ilog2q q) ≤ |q| := by
  unfold ilog2q
  split_ifs with hif
  · exact hif
  · have hnum : q.num ≠ 0 := Rat.num_ne_zero.mpr h
    have ha : 1 ≤ q.num.natAbs := by omega
    have hd : 1 ≤ q.den := q.den_pos
    have hab := natIlog2_bracket q.num.natAbs ha
    have hdb := natIlog2_bracket q.den hd
    have hdenpos : (0 : ℚ) < (q.den : ℚ) := by exact_mod_cast q.den_pos
    rw [abs_rat_eq_natAbs_div_den q, pow2_eq_zpow, le_div_iff hdenpos]
    have h1 : ((q.den : ℚ)) ≤ (2 : ℚ) ^ ((natIlog2 q.den : ℤ) + 1) := by
      have h2 : (q.den : ℚ) ≤ ((2 ^ (natIlog2 q.den + 1) : ℕ) : ℚ) := by
        exact_mod_cast Nat.le_of_lt hdb.2
      calc (q.den : ℚ) ≤ ((2 ^ (natIlog2 q.den + 1) : ℕ) : ℚ) := h2
        _ = (2 : ℚ) ^ ((natIlog2 q.den + 1 : ℕ) : ℤ) := natPow_cast_q _
        _ = (2 : ℚ) ^ ((natIlog2 q.den : ℤ) + 1) := by norm_cast
    have hstep : (2 : ℚ) ^ ((natIlog2 q.num.natAbs : ℤ) - (natIlog2 q.den : ℤ) - 1) *
        (q.den : ℚ) ≤
        (2 : ℚ) ^ ((natIlog2 q.num.natAbs : ℤ) - (natIlog2 q.den : ℤ) - 1) *
        (2 : ℚ) ^ ((natIlog2 q.den : ℤ) + 1) :=
      mul_le_mul_of_nonneg_left h1 (le_of_lt (by positivity))
    have hmul : (2 : ℚ) ^ ((natIlog2 q.num.natAbs : ℤ) - (natIlog2 q.den : ℤ) - 1) *
        (2 : ℚ) ^ ((natIlog2 q.den : ℤ) + 1) =
        (2 : ℚ) ^ ((natIlog2 q.num.natAbs : ℤ)) := by
      rw [← zpow_add₀ (by norm_num : (2 : ℚ) ≠ 0)]
      congr 1
      ring
    have h2 : (2 : ℚ) ^ ((natIlog2 q.num.natAbs : ℤ)) ≤ (q.num.natAbs : ℚ) := by
      rw [← natPow_cast_q]
      exact_mod_cast hab.1
    linarith

theorem pow2_zero : pow2 0 = 1 := by
  rw [pow2_eq_zpow]
  norm_num

theorem pow2_neg_one : pow2 (-1) = 1 / 2 := by
  rw [pow2_eq_zpow]
  norm_num

theorem rn53_err (q : ℚ) : |rn53 q - q| ≤ |q| * pow2 (-53) := by
  by_cases h : q = 0
  · subst h
    simp [rn53]
  · unfold rn53
    rw [if_neg h]
    have hqe : q = q * pow2 (52 - ilog2q q) * pow2 (ilog2q q - 52) := by
      rw [mul_assoc, pow2_mul]
      have h0 : 52 - ilog2q q + (ilog2q q - 52) = 0 := by ring
      rw [h0, pow2_zero, mul_one]
    calc |(rne (q * pow2 (52 - ilog2q q)) : ℚ) * pow2 (ilog2q q - 52) - q|
        = |((rne (q * pow2 (52 - ilog2q q)) : ℚ) - q * pow2 (52 - ilog2q q)) *
            pow2 (ilog2q q - 52)| := by
          congr 1
          rw [sub_mul, ← hqe]
      _ = |(rne (q * pow2 (52 - ilog2q q)) : ℚ) - q * pow2 (52 - ilog2q q)| *
            pow2 (ilog2q q - 52) := by
          rw [abs_mul, abs_of_pos (pow2_pos _)]
      _ ≤ (1 / 2) * pow2 (ilog2q q - 52) :=
          mul_le_mul_of_nonneg_right (rne_dist _) (pow2_pos _).le
      _ = pow2 (ilog2q q - 53) := by
          rw [← pow2_neg_one, pow2_mul]
          congr 1
          ring
      _ = pow2 (ilog2q q) * pow2 (-53) := by
          rw [pow2_mul, sub_eq_add_neg]
      _ ≤ |q| * pow2 (-53) :=
          mul_le_mul_of_nonneg_right (pow2_ilog2q_le q h) (pow2_pos _).le

theorem rn53_intCast (n : ℤ) (hn : |n| ≤ 2 ^ 53) : rn53 (n : ℚ) = n := by
  by_cases h0 : (n : ℚ) = 0
  · have hz : n = 0 := by exact_mod_cast h0
    subst hz
    simp [rn53]
  · unfold rn53
    rw [if_neg h0]
    have hle : pow2 (ilog2q (n : ℚ)) ≤ |(n : ℚ)| := pow2_ilog2q_le _ h0
    have habs : |(n : ℚ)| ≤ (2 : ℚ) ^ (53 : ℤ) := by
      have h1 : |(n : ℚ)| = ((|n| : ℤ) : ℚ) := by rw [Int.cast_abs]
      have h2 : ((|n| : ℤ) : ℚ) ≤ ((2 ^ 53 : ℤ) : ℚ) := by exact_mod_cast hn
      rw [h1]
      calc ((|n| : ℤ) : ℚ) ≤ ((2 ^ 53 : ℤ) : ℚ) := h2
        _ = (2 : ℚ) ^ (53 : ℤ) := by push_cast; norm_num
    have he53 : ilog2q (n : ℚ) ≤ 53 := by
      by_contra hgt
      push_neg at hgt
      have hlt : (2 : ℚ) ^ (53 : ℤ) < (2 : ℚ) ^ (ilog2q (n : ℚ)) :=
        zpow_lt_zpow_right₀ (by norm_num) hgt
      rw [pow2_eq_zpow] at hle
      linarith
    suffices hsuff : ∃ m : ℤ, (m : ℚ) = (n : ℚ) * pow2 (52 - ilog2q (n : ℚ)) by
      obtain ⟨m, hm⟩ := hsuff
      rw [← hm, rne_intCast, hm, mul_assoc, pow2_mul]
      have h0' : 52 - ilog2q (n : ℚ) + (ilog2q (n : ℚ) - 52) = 0 := by ring
      rw [h0', pow2_zero, mul_one]
    by_cases he52 : ilog2q (n : ℚ) ≤ 52
    · refine ⟨n * 2 ^ (52 - ilog2q (n : ℚ)).toNat, ?_⟩
      have hnn : (0 : ℤ) ≤ 52 - ilog2q (n : ℚ) := by omega
      rw [pow2_eq_zpow]
      push_cast
      rw [← zpow_natCast (2 : ℚ) (52 - ilog2q (n : ℚ)).toNat, Int.toNat_of_nonneg hnn]
    · have he' : ilog2q (n : ℚ) = 53 := by omega
      have h2 : (2 : ℚ) ^ (53 : ℤ) ≤ |(n : ℚ)| := by
        rw [← pow2_eq_zpow, ← he']
        exact hle
      have habs' : |(n : ℚ)| = (2 : ℚ) ^ (53 : ℤ) := le_antisymm habs h2
      have hn53 : |n| = 2 ^ 53 := by
        have hc : ((|n| : ℤ) : ℚ) = ((2 ^ 53 : ℤ) : ℚ) := by
          rw [Int.cast_abs, habs']
          push_cast
          norm_num
        exact_mod_cast hc
      rw [he']
      rcases abs_eq (by positivity : (0:ℤ) ≤ 2 ^ 53) |>.mp hn53 with hcase | hcase
      · refine ⟨2 ^ 52, ?_⟩
        rw [hcase]
        have : (52 : ℤ) - 53 = -1 := by ring
        rw [this, pow2_neg_one]
        push_cast
        norm_num
      · refine ⟨-2 ^ 52, ?_⟩
        rw [hcase]
        have : (52 : ℤ) - 53 = -1 := by ring
        rw [this, pow2_neg_one]
        push_cast
        norm_num

theorem floor_q_eq_fdiv (t : ℤ) (p : ℕ) : ⌊(t : ℚ) / (p : ℚ)⌋ = t.fdiv p := by
  rw [Rat.floor_intCast_div_natCast]
  exact (Int.fdiv_eq_ediv t (by positivity)).symm




theorem abs_fdiv_le (t : ℤ) (p : ℕ) (hp : 0 < p) : |t.fdiv p| ≤ |t| := by
  have hppos : (0 : ℚ) < (p : ℚ) := by exact_mod_cast hp
  have hfd : ((t.fdiv p : ℤ) : ℚ) ≤ (t : ℚ) / (p : ℚ) := by
    rw [← floor_q_eq_fdiv]
    exact Int.floor_le _
  have hfd2 : (t : ℚ) / (p : ℚ) < ((t.fdiv p : ℤ) : ℚ) + 1 := by
    rw [← floor_q_eq_fdiv]
    exact Int.lt_floor_add_one _
  have habsq : |(t : ℚ) / (p : ℚ)| ≤ |(t : ℚ)| := by
    rw [abs_div, abs_of_pos hppos]
    exact div_le_self (abs_nonneg _) (by exact_mod_cast hp)
  have hcast : |(t : ℚ)| = ((|t| : ℤ) : ℚ) := by rw [Int.cast_abs]
  have h1 : ((t.fdiv p : ℤ) : ℚ) ≤ ((|t| : ℤ) : ℚ) := by
    calc ((t.fdiv p : ℤ) : ℚ) ≤ (t : ℚ) / (p : ℚ) := hfd
      _ ≤ |(t : ℚ) / (p : ℚ)| := le_abs_self _
      _ ≤ |(t : ℚ)| := habsq
      _ = ((|t| : ℤ) : ℚ) := hcast
  have h2 : -((|t| : ℤ) : ℚ) < ((t.fdiv p : ℤ) : ℚ) + 1 := by
    calc -((|t| : ℤ) : ℚ) = -|(t : ℚ)| := by rw [hcast]
      _ ≤ -|(t : ℚ) / (p : ℚ)| := by linarith [habsq]
      _ ≤ (t : ℚ) / (p : ℚ) := neg_abs_le _
      _ < ((t.fdiv p : ℤ) : ℚ) + 1 := hfd2
  have h1' : t.fdiv p ≤ |t| := by exact_mod_cast h1
  have h2' : -|t| < t.fdiv p + 1 := by exact_mod_cast h2
  rw [abs_le]
  omega

theorem derivedCounter_eq_fdiv (t : Int) (p : Nat) (hp : 0 < p)
    (ht : |t| < 2 ^ 53) (hp2 : p ≤ 2 ^ 53) :
    derivedCounter t p = t.fdiv p := by
  unfold derivedCounter
  have hT : rn53 (t : ℚ) = (t : ℚ) := rn53_intCast t (le_of_lt ht)
  have hP : rn53 ((p : ℕ) : ℚ) = ((p : ℕ) : ℚ) := by
    have hcast : ((p : ℕ) : ℚ) = (((p : ℕ) : ℤ) : ℚ) := by push_cast; rfl
    rw [hcast]
    exact rn53_intCast ((p : ℕ) : ℤ) (by
      rw [abs_of_nonneg (by positivity : (0 : ℤ) ≤ ((p : ℕ) : ℤ))]
      exact_mod_cast hp2)
  rw [hT, hP]
  have hppos : (0 : ℚ) < (p : ℚ) := by exact_mod_cast hp
  by_cases hdvd : ((p : ℕ) : ℤ) ∣ t
  · obtain ⟨k, hk⟩ := hdvd
    have hqk : (t : ℚ) / (p : ℚ) = (k : ℚ) := by
      rw [hk]
      push_cast
      field_simp
    have hkabs : |t| = ((p : ℕ) : ℤ) * |k| := by
      rw [hk, abs_mul, abs_of_nonneg (by positivity : (0 : ℤ) ≤ ((p : ℕ) : ℤ))]
    have hk1 : |k| ≤ ((p : ℕ) : ℤ) * |k| :=
      le_mul_of_one_le_left (abs_nonneg k) (by exact_mod_cast hp)
    have hkb : |k| ≤ 2 ^ 53 := by omega
    rw [hqk, rn53_intCast k hkb, Int.floor_intCast, hk]
    exact (Int.mul_fdiv_cancel_left k (by exact_mod_cast hp.ne' : ((p : ℕ) : ℤ) ≠ 0)).symm
  · have hediv : t.fdiv ((p : ℕ) : ℤ) = t / ((p : ℕ) : ℤ) := Int.fdiv_eq_ediv t (by positivity)
    have hrm : t - ((p : ℕ) : ℤ) * (t.fdiv ((p : ℕ) : ℤ)) = t % ((p : ℕ) : ℤ) := by
      rw [hediv, Int.emod_def]
    have hpz : (0 : ℤ) < ((p : ℕ) : ℤ) := by exact_mod_cast hp
    have hr0 : 0 ≤ t % ((p : ℕ) : ℤ) := Int.emod_nonneg t (ne_of_gt hpz)
    have hr1 : t % ((p : ℕ) : ℤ) < ((p : ℕ) : ℤ) := Int.emod_lt_of_pos t hpz
    have hrne : t % ((p : ℕ) : ℤ) ≠ 0 := fun hzz => hdvd (Int.dvd_of_emod_eq_zero hzz)
    have hrange : 1 ≤ t % ((p : ℕ) : ℤ) ∧ t % ((p : ℕ) : ℤ) ≤ ((p : ℕ) : ℤ) - 1 := by omega
    have hqd : (t : ℚ) / (p : ℚ) - ((t.fdiv ((p : ℕ) : ℤ) : ℤ) : ℚ) =
        ((t % ((p : ℕ) : ℤ) : ℤ) : ℚ) / (p : ℚ) := by
      rw [← hrm]
      push_cast
      field_simp
    have herr := rn53_err ((t : ℚ) / (p : ℚ))
    have hnum : |(t : ℚ)| ≤ (2 : ℚ) ^ (53 : ℕ) - 1 := by
      have hti : |t| ≤ 2 ^ 53 - 1 := by omega
      have hc : ((|t| : ℤ) : ℚ) ≤ ((2 ^ 53 - 1 : ℤ) : ℚ) := by exact_mod_cast hti
      rw [Int.cast_abs] at hc
      calc |(t : ℚ)| ≤ ((2 ^ 53 - 1 : ℤ) : ℚ) := hc
        _ = (2 : ℚ) ^ (53 : ℕ) - 1 := by push_cast; norm_num
    have habsq : |(t : ℚ) / (p : ℚ)| ≤ ((2 : ℚ) ^ (53 : ℕ) - 1) / (p : ℚ) := by
      rw [abs_div, abs_of_pos hppos]
      gcongr
    have hp53 : pow2 (-53) = ((2 : ℚ) ^ (53 : ℕ))⁻¹ := by
      rw [pow2_eq_zpow]
      rw [show (-53 : ℤ) = -(53 : ℤ) from rfl, zpow_neg]
      norm_cast
    have hlt1 : ((2 : ℚ) ^ (53 : ℕ) - 1) * ((2 : ℚ) ^ (53 : ℕ))⁻¹ < 1 := by
      rw [← div_eq_mul_inv, div_lt_one (by positivity)]
      norm_num
    have herr' : |rn53 ((t : ℚ) / (p : ℚ)) - (t : ℚ) / (p : ℚ)| < 1 / (p : ℚ) := by
      calc |rn53 ((t : ℚ) / (p : ℚ)) - (t : ℚ) / (p : ℚ)|
          ≤ |(t : ℚ) / (p : ℚ)| * pow2 (-53) := herr
        _ ≤ (((2 : ℚ) ^ (53 : ℕ) - 1) / (p : ℚ)) * pow2 (-53) :=
            mul_le_mul_of_nonneg_right habsq (pow2_pos _).le
        _ = (((2 : ℚ) ^ (53 : ℕ) - 1) * ((2 : ℚ) ^ (53 : ℕ))⁻¹) * (1 / (p : ℚ)) := by
            rw [hp53]
            ring
        _ < 1 * (1 / (p : ℚ)) := by
            exact mul_lt_mul_of_pos_right hlt1 (by positivity)
        _ = 1 / (p : ℚ) := by ring
    have habs2 := abs_sub_lt_iff.mp herr'
    have h1p : 1 / (p : ℚ) ≤ (t : ℚ) / (p : ℚ) - ((t.fdiv ((p : ℕ) : ℤ) : ℤ) : ℚ) := by
      rw [hqd]
      gcongr
      exact_mod_cast hrange.1
    have h2p : (t : ℚ) / (p : ℚ) - ((t.fdiv ((p : ℕ) : ℤ) : ℤ) : ℚ) ≤ 1 - 1 / (p : ℚ) := by
      rw [hqd]
      have hstep : ((t % ((p : ℕ) : ℤ) : ℤ) : ℚ) / (p : ℚ) ≤ ((p : ℚ) - 1) / (p : ℚ) := by
        gcongr
        have := hrange.2
        push_cast
        exact_mod_cast this
      calc ((t % ((p : ℕ) : ℤ) : ℤ) : ℚ) / (p : ℚ) ≤ ((p : ℚ) - 1) / (p : ℚ) := hstep
        _ = 1 - 1 / (p : ℚ) := by
            rw [sub_div, div_self (ne_of_gt hppos)]
    rw [Int.floor_eq_iff]
    constructor
    · linarith [habs2.2]
    · linarith [habs2.1]



/-- Counterexample to C3 as stated: at `t = 2^53 + 1`, `p = 1`, the
`float64` conversion of `t.Unix()` rounds (ties to even) to `2^53`, so both
functions derive counter `2^53` while the exact floor division is
`2^53 + 1` — the claimed equality fails over the full time range. -/
theorem counter_float_counterexample :
    counterGen (2 ^ 53 + 1) 1 = 2 ^ 53 ∧
    u64 (Int.fdiv (2 ^ 53 + 1) 1) = 2 ^ 53 + 1 ∧
    counterGen (2 ^ 53 + 1) 1 ≠ u64 (Int.fdiv (2 ^ 53 + 1) 1) := by
  refine ⟨?_, ?_, ?_⟩ <;> with_unfolding_all decide

/-- **C3 (amended).** For every time `t` with `|Unix(t)| < 2^53` (about
±285 million years) and every period `0 < p ≤ 2^53`, the counter computed
by `GenerateCodeCustom` equals `floor(Unix(t)/p)` represented as an
unsigned 64-bit integer (negative floors wrapping modulo `2^64`), and the
signed base counter of `ValidateCustom` equals `floor(Unix(t)/p)` exactly;
there is no error condition and no side effect.  Outside that range the
`float64` rounding can change the counter. -/
theorem counter_eq_floor_div (t : Int) (p : Nat) (hp : 0 < p)
    (ht : |t| < 2 ^ 53) (hp2 : p ≤ 2 ^ 53) :
    counterGen t p = u64 (t.fdiv p) ∧ counterVal t p = t.fdiv p := by
  have hmain := derivedCounter_eq_fdiv t p hp ht hp2
  refine ⟨?_, ?_⟩
  · unfold counterGen
    rw [hmain]
  · unfold counterVal
    rw [hmain]
    have hb2 : |t.fdiv p| < 2 ^ 53 := lt_of_le_of_lt (abs_fdiv_le t p hp) ht
    rcases abs_lt.mp hb2 with ⟨hl, hr⟩
    unfold wrapS64
    omega

/-- Witness for the amended C3: at time 59 with period 30 the counter is
`u64 1` through the code's float pipeline and the exact floor division
alike, and at time -59 the signed base counter is the exact floor -2. -/
theorem counter_eq_floor_div_witness :
    0 < 30 ∧ |(59 : ℤ)| < 2 ^ 53 ∧ (30 : ℕ) ≤ 2 ^ 53 ∧
    counterGen 59 30 = u64 (Int.fdiv 59 30) ∧
    counterVal (-59) 30 = Int.fdiv (-59) 30 ∧
    Int.fdiv (-59) 30 = -2 :=
  ⟨by decide, by decide, by decide,
   (counter_eq_floor_div 59 30 (by decide) (by decide) (by decide)).1,
   (counter_eq_floor_div (-59) 30 (by decide) (by decide) (by decide)).2,
   by decide⟩

end Totp

